import Mathlib

/-
Verification of the go-feign declarative REST client against its
natural-language specification.

Shallow embedding conventions:
  * Go strings are modelled as `Str := List Char`; the Go standard-library
    string functions used by the source (strings.HasPrefix, strings.ReplaceAll,
    strings.Split, strings.SplitN, strings.TrimSpace, strings.TrimPrefix,
    strings.Fields, strings.ToUpper) are re-implemented below with the same
    semantics on the inputs the source feeds them.
  * Go maps are modelled as association lists (canonical declaration order)
    together with explicit iteration orders: Go's `for k := range m` visits
    entries in an unspecified order, so every place the source ranges over a
    map is modelled as a function of an arbitrary permutation of the entry
    list.  Built string-keyed maps (query/header sets) are modelled as the
    lookup function `Str → Option Str` produced by successive assignment.
  * Fallible operations return `Option`/`Except`; the HTTP transport is an
    oracle of type `Except Str Resp` (error message, or a response).
-/

namespace Feign

/- ===== Go string primitives ===== -/

abbrev Str := List Char

def strOf (s : String) : Str := s.data

/-- strings.HasPrefix p s (argument order: prefix first, then the string). -/
def hasPre : Str → Str → Bool
  | [], _ => true
  | _ :: _, [] => false
  | a :: p, b :: s => a == b && hasPre p s

/-- strings.ReplaceAll: replace every non-overlapping, leftmost-first
occurrence of `patt` in `s` by `rep`; the replacement text is not rescanned.
(Go treats an empty `patt` specially; the source only ever calls this with
the nonempty pattern `{name}`, and for an empty pattern this model returns
`s` unchanged.) -/
def replaceAll : Str → Str → Str → Str
  | [], _, _ => []
  | c :: cs, patt, rep =>
    if h : patt ≠ [] ∧ hasPre patt (c :: cs) = true then
      rep ++ replaceAll ((c :: cs).drop patt.length) patt rep
    else
      c :: replaceAll cs patt rep
termination_by s _ _ => s.length
decreasing_by
  · simp only [List.length_drop, List.length_cons]
    have hp : 0 < patt.length := List.length_pos.mpr h.1
    omega
  · simp

/-- Whitespace test used by strings.TrimSpace / strings.Fields. -/
def isSpc (c : Char) : Bool := c == ' ' || c == '\t' || c == '\n' || c == '\r'

/-- strings.TrimSpace (leading and trailing whitespace removed). -/
def strTrim (s : Str) : Str :=
  ((s.dropWhile isSpc).reverse.dropWhile isSpc).reverse

/-- strings.Split s (String.mk [c]) for a one-character separator. -/
def splitOnChar (c : Char) : Str → List Str
  | [] => [[]]
  | x :: xs =>
    if x == c then [] :: splitOnChar c xs
    else
      match splitOnChar c xs with
      | [] => [[x]]
      | y :: ys => (x :: y) :: ys

/-- Worker for strings.Fields: `acc` holds the current word, reversed. -/
def fieldsAux : Str → Str → List Str
  | [], acc => if acc = [] then [] else [acc.reverse]
  | c :: cs, acc =>
    if isSpc c then
      if acc = [] then fieldsAux cs [] else acc.reverse :: fieldsAux cs []
    else fieldsAux cs (c :: acc)

/-- strings.Fields: split around runs of whitespace, dropping empty words. -/
def strFields (s : Str) : List Str := fieldsAux s []

/-- Split at the first space, returning the part before it and (when a space
exists) the remainder after it. -/
def breakSp : Str → Str × Option Str
  | [] => ([], none)
  | c :: cs =>
    if c == ' ' then ([], some cs)
    else
      let r := breakSp cs
      (c :: r.1, r.2)

/-- strings.SplitN s " " 2. -/
def splitN2sp (s : Str) : List Str :=
  match breakSp s with
  | (a, none) => [a]
  | (a, some b) => [a, b]

/-- strings.TrimPrefix s p: drop `p` from the front of `s` when present. -/
def trimPrefixStr (s p : Str) : Str :=
  if hasPre p s then s.drop p.length else s

/-- strings.ToUpper (ASCII uppercasing suffices for the annotation tags). -/
def strToUpper (s : Str) : Str := s.map Char.toUpper

/- ===== Go runtime values and types (reflect view) ===== -/

/-- Dynamic Go values as far as the dispatcher inspects them: plain strings,
values whose dynamic type is exactly `map[string]string` (`vMap`), and values
of a named map type whose underlying type is `map[string]string`
(`vNamedMap`) — the type assertion `.(map[string]string)` in
ClientProxy.go:81,94 succeeds only on `vMap`. -/
inductive GoVal where
  | vStr (s : Str)
  | vMap (entries : List (Str × Str))
  | vNamedMap (entries : List (Str × Str))
deriving DecidableEq

/-- fmt.Sprintf "%v" as used on bound arguments (ClientProxy.go:72,78,91).
Only string arguments are ever formatted by the properties below; Go's
rendering of map values is not modelled (and not relied on). -/
def goFmt : GoVal → Str
  | GoVal.vStr s => s
  | GoVal.vMap _ => []
  | GoVal.vNamedMap _ => []

/-- The type assertion `args[k].Interface().(map[string]string)` of
ClientProxy.go:81,94: yields the entries on an exact `map[string]string`,
and nothing otherwise (in Go the `ok := false` branch skips the merge). -/
def entriesOfMapVal : GoVal → List (Str × Str)
  | GoVal.vMap m => m
  | _ => []

/-- Static Go types of method parameters, to the precision the parser's
checks need: `tyMapSS` is the literal type `map[string]string`,
`tyNamedMapSS` a defined (named) type whose underlying type is
`map[string]string` — both have `Kind() == reflect.Map` with string key and
element kinds, so both pass the check in ClientProxy.go:220,225. -/
inductive GoType where
  | tyMapSS
  | tyNamedMapSS
  | tyString
  | tyCtx
  | tyOther
deriving DecidableEq

/-- The reflect kind check of ClientProxy.go:220,225:
`Kind() == Map && Key().Kind() == String && Elem().Kind() == String`. -/
def kindIsMapSS : GoType → Bool
  | GoType.tyMapSS => true
  | GoType.tyNamedMapSS => true
  | _ => false

/- ===== error model (Client.go, ClientProxy.go) ===== -/

/-- An HTTP response as the dispatcher sees it (resty.Response). -/
structure Resp where
  statusCode : Nat
  status : Str
  body : Str
deriving DecidableEq

/-- HttpError of ClientProxy.go:14-18; a Go int's zero value is 0, so a
transport-failure HttpError has `statusCode = 0` (no status code set). -/
structure HttpError where
  statusCode : Nat
  status : Str
  body : Str
deriving DecidableEq

/-- Errors returned by the client: either a typed `*HttpError`, or a plain
error built with errors.New / fmt.Errorf / propagated from resty or
json.Unmarshal, identified by its message. -/
inductive GoErr where
  | httpErr (e : HttpError)
  | strErr (msg : Str)
deriving DecidableEq

/-- Discriminates the Typed Error (`*HttpError`) among returned errors. -/
def isHttpErr : GoErr → Bool
  | GoErr.httpErr _ => true
  | GoErr.strErr _ => false

def sGET : Str := strOf "GET"

def sPOST : Str := strOf "POST"

def sPUT : Str := strOf "PUT"

def sDELETE : Str := strOf "DELETE"

def sConnFailed : Str := strOf "connection failed"

def sUnmarshalFailed : Str := strOf "unmarshal failed: "

def sReqFailed : Str := strOf "request failed with status: "

def sUnsupported : Str := strOf "unsupported HTTP method: "

/-- validStatusCodes of Client.go:16-21; Go map lookup on a missing key
yields nil, i.e. the empty list. -/
def validStatusCodes (method : Str) : List Nat :=
  if method = sGET then [200]
  else if method = sPOST then [200, 201]
  else if method = sPUT then [200]
  else if method = sDELETE then [200, 204]
  else []

/-- isValidStatus of Client.go:226-233. -/
def isValidStatus (method : Str) (status : Nat) : Bool :=
  (validStatusCodes method).any (fun code => code == status)

/-- Error outcome of the generated handler, ClientProxy.go:139-150.
`exec` is the transport outcome of `rResty.Execute` (error message or
response); `decodeErr` is the outcome of `json.Unmarshal` on the body
(its error message, when it fails). oNote the accepted statuses are the
whole 2xx range, independent of the verb. -/
def genDispatchError (exec : Except Str Resp) (decodeErr : Option Str) :
    Option GoErr :=
  match exec with
  | Except.error msg => some (GoErr.httpErr ⟨0, sConnFailed, msg⟩)
  | Except.ok resp =>
    if resp.statusCode < 200 ∨ resp.statusCode ≥ 300 then
      some (GoErr.httpErr ⟨resp.statusCode, resp.status, resp.body⟩)
    else
      decodeErr.map (fun m => GoErr.strErr (sUnmarshalFailed ++ m))

/-- The method switch of Client.go:137-148 dispatches only these verbs. -/
def supportedMethod (method : Str) : Bool :=
  method == sGET || method == sPOST || method == sPUT || method == sDELETE

/-- Error outcome of CallREST's handler, Client.go:137-165: an unsupported
verb fails before the transport runs; a transport error is returned as-is
(`return err`, Client.go:149-151); a status outside the per-verb table
yields an errors.New string error; otherwise json.Unmarshal's error (if
any) is returned unchanged. No branch builds an HttpError. -/
def callRESTError (method : Str) (exec : Except Str Resp)
    (decodeErr : Option Str) : Option GoErr :=
  if supportedMethod method then
    match exec with
    | Except.error msg => some (GoErr.strErr msg)
    | Except.ok resp =>
      if isValidStatus method resp.statusCode then
        decodeErr.map (fun m => GoErr.strErr m)
      else
        some (GoErr.strErr (sReqFailed ++ resp.status))
  else some (GoErr.strErr (sUnsupported ++ method))

/-- Body attachment condition of the generated handler, ClientProxy.go:134:
`r.Body != nil && r.Method != "GET"` (body and the JSON Content-Type header
are set together under this condition). -/
def genAttachBody (method : Str) (body : Option GoVal) : Bool :=
  body.isSome && !(method == sGET)

/-- Body attachment condition of CallREST, Client.go:129: `r.Body != nil`
with no restriction on the method. -/
def callRESTAttachBody (method : Str) (body : Option GoVal) : Bool :=
  body.isSome

/- ===== path template resolution ===== -/

/-- The placeholder string for a name: fmt.Sprintf("\x7b%s\x7d", name)
(ClientProxy.go:71) and "\x7b"+k+"\x7d" (Client.go:220). -/
def patOf (name : Str) : Str := '{' :: (name ++ ['}'])

/-- Path resolution: both formatPath (Client.go:218-223) and the path loop
of the generated handler (ClientProxy.go:69-73) run strings.ReplaceAll once
per binding, in the iteration order of a Go map; `vars` is the entry list
in that order, values already in string form. -/
def formatPath (path : Str) (vars : List (Str × Str)) : Str :=
  vars.foldl (fun p kv => replaceAll p (patOf kv.1) kv.2) path

/-- Structured view of a path template: literal runs and placeholders. -/
inductive Seg where
  | lit (s : Str)
  | ph (name : Str)
deriving DecidableEq

def renderSeg : Seg → Str
  | Seg.lit s => s
  | Seg.ph n => patOf n

def renderT (segs : List Seg) : Str := (segs.map renderSeg).flatten

/-- First-match association-list lookup. -/
def lookupN (n : Str) : List (Str × Str) → Option Str
  | [] => none
  | kv :: vs => if kv.1 = n then some kv.2 else lookupN n vs

/-- Specification-level substitution on the structured template: a bound
placeholder becomes its value as a literal, an unbound one stays. -/
def substSeg (vars : List (Str × Str)) : Seg → Seg
  | Seg.lit s => Seg.lit s
  | Seg.ph n =>
    match lookupN n vars with
    | some v => Seg.lit v
    | none => Seg.ph n

/-- Substitution of a single binding. -/
def substOne (x v : Str) : Seg → Seg
  | Seg.lit s => Seg.lit s
  | Seg.ph n => if n = x then Seg.lit v else Seg.ph n

/-- Hygiene of a template segment: literals contain no opening brace and
placeholder names contain no braces. -/
def segOk : Seg → Prop
  | Seg.lit s => '{' ∉ s
  | Seg.ph n => '{' ∉ n ∧ '}' ∉ n

instance instDecSegOk : DecidablePred segOk := fun s =>
  match s with
  | Seg.lit u => inferInstanceAs (Decidable ('{' ∉ u))
  | Seg.ph n => inferInstanceAs (Decidable ('{' ∉ n ∧ '}' ∉ n))

/-- Hygiene of a path binding: brace-free name, value without an opening
brace (so a substituted value cannot spawn new placeholders). -/
def varOk (kv : Str × Str) : Prop :=
  ('{' ∉ kv.1 ∧ '}' ∉ kv.1) ∧ '{' ∉ kv.2

instance instDecVarOk : DecidablePred varOk := fun kv =>
  inferInstanceAs (Decidable (('{' ∉ kv.1 ∧ '}' ∉ kv.1) ∧ '{' ∉ kv.2))

/- ===== query / header map construction ===== -/

def emptyKV : Str → Option Str := fun _ => none

/-- A single Go map assignment `m[k] = v`, viewed through lookup. -/
def updKV (m : Str → Option Str) (k v : Str) : Str → Option Str :=
  fun q => if q = k then some v else m q

/-- Successive assignments, in order. -/
def applyWrites (m : Str → Option Str) (ws : List (Str × Str)) :
    Str → Option Str :=
  ws.foldl (fun acc kv => updKV acc kv.1 kv.2) m

/-- The value of the last write to a key, if any. -/
def findLast : List (Str × Str) → Str → Option Str
  | [], _ => none
  | kv :: ws, q =>
    match findLast ws q with
    | some v => some v
    | none => if kv.1 = q then some kv.2 else none

/-- Query-parameter / header construction of ClientProxy.go:76-99: one
fresh empty map, the writes of the single bindings first (loop 1), then
the writes of every mapping binding (loop 2), where `sing` and `maps` list
those writes in the Go-map iteration order of the respective loops. -/
def buildParams (sing : List (Str × Str)) (maps : List (List (Str × Str))) :
    Str → Option Str :=
  applyWrites (applyWrites emptyKV sing) maps.flatten

/-- The writes performed by the single-binding loop
(`m[name] = fmt.Sprintf("%v", args[idx])`) for bindings listed in `bs`
in iteration order. -/
def singleWrites (bs : List (Nat × Str)) (args : Nat → GoVal) :
    List (Str × Str) :=
  bs.map (fun kv => (kv.2, goFmt (args kv.1)))

/-- Body selection of ClientProxy.go:61-66: the first entry of the body
map in iteration order (`for k := range meta.BodyParam ... break`), nil
when no BODY binding exists. -/
def bodyChosen (order : List (Nat × Str)) (args : Nat → GoVal) :
    Option GoVal :=
  order.head?.map (fun kv => args kv.1)

/-- The Normalized Request (feign.Request, Client.go:27-36) as the
generated handler fills it (ClientProxy.go:101-111), keeping the parts the
claims speak about. -/
structure ReqN where
  method : Str
  path : Str
  params : Str → Option Str
  headers : Str → Option Str
  body : Option GoVal

/-- Request construction of one invocation of a generated function
(ClientProxy.go:56-111), as a function of the call plan content, the live
arguments, and the iteration orders the Go runtime happened to pick. -/
def buildRequestN (method pathT : Str) (pathOrd : List (Str × Str))
    (singQ : List (Str × Str)) (mapsQ : List (List (Str × Str)))
    (singH : List (Str × Str)) (mapsH : List (List (Str × Str)))
    (bodyOrd : List (Nat × Str)) (args : Nat → GoVal) : ReqN :=
  { method := method
    path := formatPath pathT pathOrd
    params := buildParams singQ mapsQ
    headers := buildParams singH mapsH
    body := bodyChosen bodyOrd args }

/-- Write lists that never map one key to two values. -/
def functionalKV (ws : List (Str × Str)) : Prop :=
  ∀ p ∈ ws, ∀ p2 ∈ ws, p.1 = p2.1 → p.2 = p2.2

instance instDecFunctionalKV : DecidablePred functionalKV := fun ws =>
  inferInstanceAs (Decidable (∀ p ∈ ws, ∀ p2 ∈ ws, p.1 = p2.1 → p.2 = p2.2))

/-- Content equality of two normalized requests (maps compared by lookup). -/
def reqEq (r1 r2 : ReqN) : Prop :=
  r1.method = r2.method ∧ r1.path = r2.path ∧
  (∀ q, r1.params q = r2.params q) ∧
  (∀ q, r1.headers q = r2.headers q) ∧
  r1.body = r2.body

/- ===== middleware chain ===== -/

/-- Observable events of an instrumented interceptor. -/
inductive Evt where
  | pre (n : Nat)
  | post (n : Nat)
deriving DecidableEq

/-- Handler of Client.go:38, with the observable effects made explicit: a
handler yields the trace of events it produced and the error it returns
(errors as numbers; `none` is a nil error). -/
def HandlerT : Type := ReqN → List Evt × Option Nat

/-- Middleware of Client.go:40. -/
def MiddlewareT : Type := HandlerT → HandlerT

/-- buildChain of Client.go:76-81: the loop
`for i := len(mws)-1; i >= 0; i-- do final = mws[i](final)` produces
`mws[0] (mws[1] (... (mws[n-1] final)))`, which is this recursion. -/
def buildChain : List MiddlewareT → HandlerT → HandlerT
  | [], final => final
  | mw :: rest, final => mw (buildChain rest final)

/-- An interceptor with observable pre- and post-logic: it emits `pre n`,
delegates, emits `post n` after the delegate's events, and propagates the
delegate's error unchanged. -/
def traceItc (n : Nat) : MiddlewareT := fun next req =>
  (Evt.pre n :: (next req).1 ++ [Evt.post n], (next req).2)

/- ===== annotation parsing (parseTagInfo, ClientProxy.go:181-231) ===== -/

/-- tagMeta of ClientProxy.go:170-179; the Go `map[int]string` fields are
kept as association lists in insertion (= declaration) order. -/
structure TagMeta where
  httpMethod : Str
  path : Str
  bodyParam : List (Nat × Str)
  pathVars : List (Nat × Str)
  headers : List (Nat × Str)
  queries : List (Nat × Str)
  mapHeaders : List (Nat × Str)
  mapQueries : List (Nat × Str)
deriving DecidableEq

def emptyMeta : TagMeta := ⟨[], [], [], [], [], [], [], []⟩

/-- The cases of the switch in ClientProxy.go:206-228. -/
inductive TagKind where
  | verb
  | pathB
  | headerB
  | bodyB
  | queryB
  | headersB
  | queriesB
  | other
deriving DecidableEq

/-- Classification `switch strings.ToUpper(tag)` of ClientProxy.go:206. -/
def classify (tag : Str) : TagKind :=
  if tag = sGET ∨ tag = sPOST ∨ tag = sPUT ∨ tag = sDELETE then TagKind.verb
  else if tag = strOf "PATH" then TagKind.pathB
  else if tag = strOf "HEADER" then TagKind.headerB
  else if tag = strOf "BODY" then TagKind.bodyB
  else if tag = strOf "QUERY" then TagKind.queryB
  else if tag = strOf "HEADERS" then TagKind.headersB
  else if tag = strOf "QUERIES" then TagKind.queriesB
  else TagKind.other

/-- One iteration of the parser loop body (ClientProxy.go:194-229) at line
index `j`: trim, skip empty lines, SplitN on the first space, skip
one-part lines, strip a leading "@", classify; HEADERS/QUERIES segments
are kept only when the parameter at position `j` has map-of-string-to-
string kind. -/
def parseStep (tys : Nat → GoType) (meta : TagMeta) (j : Nat) (line : Str) :
    TagMeta :=
  let t := strTrim line
  if t = [] then meta
  else
    match splitN2sp t with
    | [tag0, value] =>
      let tag := strToUpper (trimPrefixStr tag0 (strOf "@"))
      match classify tag with
      | TagKind.verb => { meta with httpMethod := tag, path := value }
      | TagKind.pathB => { meta with pathVars := meta.pathVars ++ [(j, value)] }
      | TagKind.headerB => { meta with headers := meta.headers ++ [(j, value)] }
      | TagKind.bodyB => { meta with bodyParam := meta.bodyParam ++ [(j, value)] }
      | TagKind.queryB => { meta with queries := meta.queries ++ [(j, value)] }
      | TagKind.headersB =>
        if kindIsMapSS (tys j) then
          { meta with mapHeaders := meta.mapHeaders ++ [(j, value)] }
        else meta
      | TagKind.queriesB =>
        if kindIsMapSS (tys j) then
          { meta with mapQueries := meta.mapQueries ++ [(j, value)] }
        else meta
      | TagKind.other => meta
    | _ => meta

/-- The parser loop `for j, line := range strings.Split(doc, "|")`. -/
def parseLines (tys : Nat → GoType) : Nat → List Str → TagMeta → TagMeta
  | _, [], meta => meta
  | j, l :: ls, meta => parseLines tys (j + 1) ls (parseStep tys meta j l)

/-- parseTagInfo of ClientProxy.go:181-231 (the struct-tag string is the
`doc`; `tys j` is `methodType.In(j)`). -/
def parseTagInfo (tys : Nat → GoType) (doc : Str) : TagMeta :=
  parseLines tys 0 (splitOnChar '|' doc) emptyMeta

/-- Does line `line` at index `j` contribute a QUERIES mapping binding
(and with which tag value)?  Mirrors exactly the conditions of the QUERIES
branch of parseStep. -/
def queriesAccept (tys : Nat → GoType) (j : Nat) (line : Str) : Option Str :=
  let t := strTrim line
  if t = [] then none
  else
    match splitN2sp t with
    | [tag0, value] =>
      if classify (strToUpper (trimPrefixStr tag0 (strOf "@"))) = TagKind.queriesB
          ∧ kindIsMapSS (tys j) then some value
      else none
    | _ => none

/-- Same as queriesAccept, for HEADERS segments. -/
def headersAccept (tys : Nat → GoType) (j : Nat) (line : Str) : Option Str :=
  let t := strTrim line
  if t = [] then none
  else
    match splitN2sp t with
    | [tag0, value] =>
      if classify (strToUpper (trimPrefixStr tag0 (strOf "@"))) = TagKind.headersB
          ∧ kindIsMapSS (tys j) then some value
      else none
    | _ => none

/-- Collect the indexed accepts of a line list, starting at index `j`. -/
def collectIdx (f : Nat → Str → Option Str) : Nat → List Str → List (Nat × Str)
  | _, [] => []
  | j, l :: ls =>
    (match f j l with
     | some v => [(j, v)]
     | none => []) ++ collectIdx f (j + 1) ls

/- ===== base URL resolution ===== -/

def sHttp : Str := strOf "http://"

def sHttps : Str := strOf "https://"

def sAtUrl : Str := strOf "@Url"

/-- resolveUrl of ClientProxy.go:25-30; `viper` is the named-configuration
collaborator (viper.GetString), returning the empty string on a missing
key. -/
def resolveUrl (viper : Str → Str) (value : Str) : Str :=
  if hasPre sHttp value || hasPre sHttps value then value else viper value

/-- One line of a marker field's tag, ClientProxy.go:239-247: trim, demand
the "@Url" prefix, split into fields, demand at least two of them, resolve
the second; a non-empty resolution is the answer. -/
def urlFromLine (viper : Str → Str) (line : Str) : Option Str :=
  let t := strTrim line
  if hasPre sAtUrl t then
    match strFields t with
    | _ :: v :: _ =>
      let u := resolveUrl viper v
      if u ≠ [] then some u else none
    | _ => none
  else none

/-- Scan of all "|"-separated lines of one tag, first hit wins. -/
def urlFromTag (viper : Str → Str) (tag : Str) : Option Str :=
  (splitOnChar '|' tag).findSome? (urlFromLine viper)

/-- A struct field as seen by extractBaseURLFromStruct: whether its type
is the empty marker `struct\x7b\x7d`, and its feign tag. -/
structure GoField where
  isMarker : Bool
  tag : Str

/-- extractBaseURLFromStruct of ClientProxy.go:233-252: the first non-empty
resolution from a marker field's "@Url" line wins; otherwise the default
URL (the client's constructor-supplied base URL, ClientProxy.go:37). -/
def extractBaseURLFromStruct (viper : Str → Str) (fields : List GoField)
    (defaultURL : Str) : Str :=
  match fields.findSome? (fun f => if f.isMarker then urlFromTag viper f.tag else none) with
  | some u => u
  | none => defaultURL

/- ===================== theorems ===================== -/

/- ----- strings.ReplaceAll and path substitution ----- -/

theorem replaceAll_nil (patt rep : Str) : replaceAll [] patt rep = [] := by
  simp [replaceAll]

theorem replaceAll_cons_match (c : Char) (cs patt rep : Str)
    (h1 : patt ≠ []) (h2 : hasPre patt (c :: cs) = true) :
    replaceAll (c :: cs) patt rep =
      rep ++ replaceAll ((c :: cs).drop patt.length) patt rep := by
  rw [replaceAll]
  simp [h1, h2]

theorem replaceAll_cons_nomatch (c : Char) (cs patt rep : Str)
    (h2 : hasPre patt (c :: cs) = false) :
    replaceAll (c :: cs) patt rep = c :: replaceAll cs patt rep := by
  rw [replaceAll]
  simp [h2]

theorem hasPre_self_append (p r : Str) : hasPre p (p ++ r) = true := by
  induction p with
  | nil => simp [hasPre]
  | cons a p ih => simp [hasPre, ih]

theorem patOf_ne_nil (name : Str) : patOf name ≠ [] := by
  simp [patOf]

theorem replaceAll_match_prefix (patt rep r : Str) (hp : patt ≠ []) :
    replaceAll (patt ++ r) patt rep = rep ++ replaceAll r patt rep := by
  cases patt with
  | nil => exact absurd rfl hp
  | cons c cs =>
    rw [List.cons_append,
        replaceAll_cons_match c (cs ++ r) (c :: cs) rep (by simp)
          (by rw [← List.cons_append]; exact hasPre_self_append _ r)]
    congr 1
    rw [← List.cons_append, List.drop_left]

theorem replaceAll_through (u t name rep : Str) (hu : '{' ∉ u) :
    replaceAll (u ++ t) (patOf name) rep = u ++ replaceAll t (patOf name) rep := by
  induction u with
  | nil => simp
  | cons c cs ih =>
    have hc : ('{' == c) = false := by
      have : c ≠ '{' := fun e => hu (by simp [e])
      simp [beq_eq_false_iff_ne]
      exact fun e => this e.symm
    have hnp : hasPre (patOf name) (c :: (cs ++ t)) = false := by
      simp [patOf, hasPre, hc]
    rw [List.cons_append, replaceAll_cons_nomatch _ _ _ _ hnp,
        ih (fun m => hu (List.mem_cons_of_mem c m))]
    simp

theorem hasPre_names_ne (x : Str) : ∀ (y t : Str), x ≠ y → '}' ∉ x → '}' ∉ y →
    hasPre (x ++ ['}']) (y ++ '}' :: t) = false := by
  induction x with
  | nil =>
    intro y t hxy hx hy
    cases y with
    | nil => exact absurd rfl hxy
    | cons b ys =>
      have hb : ('}' == b) = false := by
        have : b ≠ '}' := fun e => hy (by simp [e])
        simp [beq_eq_false_iff_ne]
        exact fun e => this e.symm
      simp [hasPre, hb]
  | cons a xs ih =>
    intro y t hxy hx hy
    cases y with
    | nil =>
      have ha : (a == '}') = false := by
        have : a ≠ '}' := fun e => hx (by simp [e])
        simp [beq_eq_false_iff_ne, this]
      simp [hasPre, ha]
    | cons b ys =>
      by_cases hab : a = b
      · subst hab
        have hxs : xs ≠ ys := by
          intro e
          exact hxy (by rw [e])
        have h1 : '}' ∉ xs := fun m => hx (List.mem_cons_of_mem a m)
        have h2 : '}' ∉ ys := fun m => hy (List.mem_cons_of_mem a m)
        simp [hasPre]
        exact ih ys t hxs h1 h2
      · have : (a == b) = false := by simp [beq_eq_false_iff_ne, hab]
        simp [hasPre, this]

theorem hasPre_patOf_ph_ne (x y t : Str) (hxy : x ≠ y)
    (hx : '}' ∉ x) (hy : '}' ∉ y) :
    hasPre (patOf x) (patOf y ++ t) = false := by
  have h := hasPre_names_ne x y t hxy hx hy
  simp [patOf, hasPre]
  exact h

theorem segOk_of_mem {segs : List Seg} (hs : ∀ s ∈ segs, segOk s)
    {s : Seg} (h : s ∈ segs) : segOk s := hs s h

theorem replaceAll_renderT (segs : List Seg) (x v : Str)
    (hs : ∀ s ∈ segs, segOk s) (hx1 : '{' ∉ x) (hx2 : '}' ∉ x) :
    replaceAll (renderT segs) (patOf x) v = renderT (segs.map (substOne x v)) := by
  induction segs with
  | nil => simp [renderT, replaceAll]
  | cons sg rest ih =>
    have hrest : ∀ s ∈ rest, segOk s := fun s m => hs s (List.mem_cons_of_mem sg m)
    have ihr := ih hrest
    cases sg with
    | lit u =>
      have hu : '{' ∉ u := hs (Seg.lit u) (List.mem_cons_self _ _)
      have hr : renderT (Seg.lit u :: rest) = u ++ renderT rest := by
        simp [renderT, renderSeg]
      rw [hr, replaceAll_through u _ x v hu, ihr]
      simp [renderT, renderSeg, substOne]
    | ph n =>
      have hr : renderT (Seg.ph n :: rest) = patOf n ++ renderT rest := by
        simp [renderT, renderSeg]
      by_cases hnx : n = x
      · subst hnx
        rw [hr, replaceAll_match_prefix _ _ _ (patOf_ne_nil n), ihr]
        simp [renderT, renderSeg, substOne]
      · have hn : '{' ∉ n ∧ '}' ∉ n := hs (Seg.ph n) (List.mem_cons_self _ _)
        have hnomatch : hasPre (patOf x) (patOf n ++ renderT rest) = false :=
          hasPre_patOf_ph_ne x n _ (fun e => hnx e.symm) hx2 hn.2
        have hshape : patOf n ++ renderT rest = '{' :: ((n ++ ['}']) ++ renderT rest) := by
          simp [patOf]
        rw [hshape] at hnomatch
        rw [hr, hshape]
        rw [replaceAll_cons_nomatch _ _ _ _ hnomatch]
        have hu : '{' ∉ n ++ ['}'] := by
          intro m
          rcases List.mem_append.mp m with m1 | m1
          · exact hn.1 m1
          · simp at m1
        rw [replaceAll_through _ _ x v hu, ihr]
        simp [renderT, renderSeg, substOne, hnx, patOf]

theorem substSeg_nil (s : Seg) : substSeg [] s = s := by
  cases s <;> simp [substSeg, lookupN]

theorem substSeg_substOne (vs : List (Str × Str)) (k v : Str) (s : Seg) :
    substSeg vs (substOne k v s) = substSeg ((k, v) :: vs) s := by
  cases s with
  | lit u => simp [substOne, substSeg]
  | ph n =>
    by_cases hnk : n = k
    · subst hnk
      simp [substOne, substSeg, lookupN]
    · have hkn : ¬ k = n := fun e => hnk e.symm
      simp [substOne, substSeg, lookupN, hnk, hkn]

theorem segOk_substOne {k v : Str} (hv : '{' ∉ v) {s : Seg} (h : segOk s) :
    segOk (substOne k v s) := by
  cases s with
  | lit u => simpa [substOne] using h
  | ph n =>
    by_cases hnk : n = k
    · simpa [substOne, hnk, segOk] using hv
    · simpa [substOne, hnk] using h

/-- Core path-resolution lemma: over a hygienic structured template,
running the source's ReplaceAll fold (in any binding order) performs
exactly the specification-level substitution: every occurrence of a bound
placeholder is replaced with the bound value, every other placeholder is
left verbatim. -/
theorem formatPath_renderT (vars : List (Str × Str)) :
    ∀ segs : List Seg, (∀ s ∈ segs, segOk s) → (∀ kv ∈ vars, varOk kv) →
    formatPath (renderT segs) vars = renderT (segs.map (substSeg vars)) := by
  induction vars with
  | nil =>
    intro segs hs _
    have : segs.map (substSeg []) = segs := by
      calc segs.map (substSeg []) = segs.map id := by
            exact List.map_congr_left (fun s _ => substSeg_nil s)
        _ = segs := List.map_id segs
    rw [this]
    simp [formatPath]
  | cons kv vs ih =>
    intro segs hs hv
    have hkv : varOk kv := hv kv (List.mem_cons_self _ _)
    have hstep : formatPath (renderT segs) (kv :: vs) =
        formatPath (replaceAll (renderT segs) (patOf kv.1) kv.2) vs := by
      simp [formatPath]
    rw [hstep, replaceAll_renderT segs kv.1 kv.2 hs hkv.1.1 hkv.1.2]
    rw [ih (segs.map (substOne kv.1 kv.2))
          (by
            intro s m
            rcases List.mem_map.mp m with ⟨s0, hm, he⟩
            rw [← he]
            exact segOk_substOne hkv.2 (hs s0 hm))
          (fun p m => hv p (List.mem_cons_of_mem kv m))]
    rw [List.map_map]
    exact congrArg renderT
      (List.map_congr_left (fun s _ => substSeg_substOne vs kv.1 kv.2 s))

/- ----- C3 ----- -/

/-- C3: for every (hygienic, structurally well-formed) path template and
every list of PATH bindings in any iteration order, path resolution
replaces every occurrence of a bound placeholder `\x7bx\x7d` with the
string form of the bound value, and leaves every placeholder without a
binding verbatim in the resolved path, without error: the ReplaceAll fold
of Client.go:218-223 / ClientProxy.go:69-73 equals the per-segment
specification substitution. -/
theorem c3_path_substitution (segs : List Seg) (vars : List (Str × Str))
    (hs : ∀ s ∈ segs, segOk s) (hv : ∀ kv ∈ vars, varOk kv) :
    formatPath (renderT segs) vars = renderT (segs.map (substSeg vars)) :=
  formatPath_renderT vars segs hs hv

/-- Witness for c3_path_substitution: a template with two occurrences of
the bound placeholder `id` and one unbound placeholder `missing`. -/
theorem c3_path_substitution_witness :
    (∀ s ∈ [Seg.lit (strOf "/users/"), Seg.ph (strOf "id"),
            Seg.lit (strOf "/a"), Seg.ph (strOf "id"), Seg.ph (strOf "missing")],
        segOk s) ∧
    formatPath
        (renderT [Seg.lit (strOf "/users/"), Seg.ph (strOf "id"),
                  Seg.lit (strOf "/a"), Seg.ph (strOf "id"),
                  Seg.ph (strOf "missing")])
        [(strOf "id", strOf "42")] =
      renderT ([Seg.lit (strOf "/users/"), Seg.ph (strOf "id"),
                Seg.lit (strOf "/a"), Seg.ph (strOf "id"),
                Seg.ph (strOf "missing")].map
                  (substSeg [(strOf "id", strOf "42")])) :=
  ⟨by decide,
   c3_path_substitution _ [(strOf "id", strOf "42")] (by decide) (by decide)⟩

/- ----- C2 ----- -/

/-- C2: for a client with interceptor A registered first and B second, the
chain built by buildChain (Client.go:76-81) evaluates
first-registered-outermost: a dispatched call observes A's pre-logic, then
B's pre-logic, then the terminal handler, then B's post-logic, then A's
post-logic, and the terminal handler's error propagates back through B and
then A unchanged. -/
theorem c2_middleware_order (a b : Nat) (final : HandlerT) (req : ReqN) :
    buildChain [traceItc a, traceItc b] final req =
      (Evt.pre a :: Evt.pre b :: (final req).1 ++ [Evt.post b, Evt.post a],
       (final req).2) := by
  simp [buildChain, traceItc]

/- ----- C1 ----- -/

/-- Counterexample to C1 as stated: a GET response with status 204 lies
outside the claimed per-verb accepted set for GET (validStatusCodes "GET" =
\x5b200\x5d, so isValidStatus is false), yet the generated dispatcher
(ClientProxy.go:143) accepts every 2xx status and returns no Typed Error. -/
theorem c1_counterexample :
    isValidStatus sGET 204 = false ∧
    genDispatchError (Except.ok ⟨204, strOf "204 No Content", strOf ""⟩) none
      = none := by
  constructor
  · decide
  · decide

/-- C1 amended: for every invocation of a generated client function for
which the transport returns a response, the accepted set is the whole 2xx
range regardless of verb (the per-verb table validStatusCodes is consulted
only by CallREST): outside 2xx the call returns a Typed Error (HttpError)
carrying the real status code, status text and raw response body; inside
2xx no Typed Error is returned (in particular GET 200 is accepted and GET
404 yields an HttpError with statusCode 404). -/
theorem c1_generated_status_classification (sc : Nat) (st b : Str)
    (d : Option Str) :
    ((sc < 200 ∨ 300 ≤ sc) →
      genDispatchError (Except.ok ⟨sc, st, b⟩) d =
        some (GoErr.httpErr ⟨sc, st, b⟩)) ∧
    (200 ≤ sc → sc < 300 →
      ∀ e, genDispatchError (Except.ok ⟨sc, st, b⟩) d = some e →
        isHttpErr e = false) := by
  constructor
  · intro h
    simp only [genDispatchError]
    rw [if_pos h]
  · intro h1 h2 e he
    have hcond : ¬ (sc < 200 ∨ sc ≥ 300) := by omega
    simp only [genDispatchError] at he
    rw [if_neg hcond] at he
    cases d with
    | none => simp at he
    | some m =>
      simp at he
      rw [← he]
      simp [isHttpErr]

/-- Witness for c1_generated_status_classification: GET 404 yields the
HttpError with statusCode 404; GET 200 yields no Typed Error. -/
theorem c1_generated_status_classification_witness :
    genDispatchError (Except.ok ⟨404, strOf "404 Not Found", strOf "nf"⟩) none
        = some (GoErr.httpErr ⟨404, strOf "404 Not Found", strOf "nf"⟩) ∧
    (∀ e, genDispatchError (Except.ok ⟨200, strOf "200 OK", strOf "ok"⟩) none
        = some e → isHttpErr e = false) :=
  ⟨(c1_generated_status_classification 404 (strOf "404 Not Found")
      (strOf "nf") none).1 (by decide),
   (c1_generated_status_classification 200 (strOf "200 OK")
      (strOf "ok") none).2 (by decide) (by decide)⟩

/- ----- C5 ----- -/

/-- Counterexample to C5 as stated: on a transport failure CallREST
(Client.go:149-151) returns the underlying error unchanged — a plain
error, not a Typed Error (HttpError). -/
theorem c5_counterexample :
    callRESTError sGET (Except.error (strOf "boom")) none =
      some (GoErr.strErr (strOf "boom")) ∧
    isHttpErr (GoErr.strErr (strOf "boom")) = false := by
  constructor
  · decide
  · decide

/-- C5 amended: when the transport fails, a generated dispatcher function
returns a Typed Error with no status code (0), the fixed label
"connection failed" as status text and the cause's message as body
(ClientProxy.go:140-142), while the programmatic CallREST entry point
propagates the underlying transport error unchanged (Client.go:149-151). -/
theorem c5_transport_failure (msg : Str) (d : Option Str) (m : Str) :
    genDispatchError (Except.error msg) d =
      some (GoErr.httpErr ⟨0, sConnFailed, msg⟩) ∧
    (supportedMethod m = true →
      callRESTError m (Except.error msg) d = some (GoErr.strErr msg)) := by
  constructor
  · rfl
  · intro h
    simp [callRESTError, h]

/-- Witness for c5_transport_failure at method GET and message "down". -/
theorem c5_transport_failure_witness :
    genDispatchError (Except.error (strOf "down")) none =
      some (GoErr.httpErr ⟨0, sConnFailed, strOf "down"⟩) ∧
    callRESTError sGET (Except.error (strOf "down")) none =
      some (GoErr.strErr (strOf "down")) :=
  ⟨(c5_transport_failure (strOf "down") none sGET).1,
   (c5_transport_failure (strOf "down") none sGET).2 (by decide)⟩

/- ----- C6 ----- -/

/-- Counterexample to C6 as stated: the programmatic CallREST entry point
(Client.go:129-132) attaches a non-nil body — and sets the JSON content
type — for every verb, including GET; only the generated dispatcher
(ClientProxy.go:134) excludes GET. -/
theorem c6_counterexample :
    callRESTAttachBody sGET (some (GoVal.vStr (strOf "x"))) = true ∧
    genAttachBody sGET (some (GoVal.vStr (strOf "x"))) = false := by
  constructor
  · decide
  · decide

/-- C6 amended: in the generated dispatcher a present body is attached
(with the JSON content type) exactly when the verb is not GET
(ClientProxy.go:134-137); in CallREST a present body is attached for every
verb, GET included (Client.go:129-132); an absent body is never attached. -/
theorem c6_body_attachment (m : Str) (b : GoVal) :
    genAttachBody m none = false ∧
    (genAttachBody m (some b) = true ↔ m ≠ sGET) ∧
    callRESTAttachBody m none = false ∧
    callRESTAttachBody m (some b) = true := by
  refine ⟨by simp [genAttachBody], ?_, by simp [callRESTAttachBody], by
    simp [callRESTAttachBody]⟩
  simp [genAttachBody]

/-- Witness for c6_body_attachment: POST attaches a present body, GET
carries none in the generated dispatcher. -/
theorem c6_body_attachment_witness :
    genAttachBody sPOST (some (GoVal.vStr [])) = true ∧
    genAttachBody sGET none = false :=
  ⟨(c6_body_attachment sPOST (GoVal.vStr [])).2.1.mpr (by decide),
   (c6_body_attachment sGET (GoVal.vStr [])).1⟩

/- ----- map-write bookkeeping ----- -/

theorem applyWrites_findLast (ws : List (Str × Str)) :
    ∀ (m : Str → Option Str) (q : Str),
    applyWrites m ws q =
      match findLast ws q with
      | some v => some v
      | none => m q := by
  induction ws with
  | nil =>
    intro m q
    simp [applyWrites, findLast]
  | cons kv ws ih =>
    intro m q
    have h1 : applyWrites m (kv :: ws) = applyWrites (updKV m kv.1 kv.2) ws := by
      simp [applyWrites]
    rw [h1, ih]
    cases hf : findLast ws q with
    | some v => simp [findLast, hf]
    | none =>
      simp only [findLast, hf]
      by_cases hq : kv.1 = q
      · simp [updKV, hq]
      · have hq2 : ¬ q = kv.1 := fun e => hq e.symm
        simp [updKV, hq, hq2]

theorem findLast_mem (ws : List (Str × Str)) (q v : Str) :
    findLast ws q = some v → (q, v) ∈ ws := by
  induction ws with
  | nil => simp [findLast]
  | cons kv ws ih =>
    intro h
    rw [findLast] at h
    cases hf : findLast ws q with
    | some w =>
      rw [hf] at h
      have hwv : w = v := by simpa using h
      rw [hwv] at hf
      exact List.mem_cons_of_mem kv (ih hf)
    | none =>
      rw [hf] at h
      by_cases hq : kv.1 = q
      · rw [if_pos hq] at h
        have hv : kv.2 = v := by simpa using h
        have : (q, v) = kv := by
          rw [← hq, ← hv]
        exact this ▸ List.mem_cons_self kv ws
      · rw [if_neg hq] at h
        cases h

theorem findLast_none_iff (ws : List (Str × Str)) (q : Str) :
    findLast ws q = none ↔ ∀ kv ∈ ws, kv.1 ≠ q := by
  induction ws with
  | nil => simp [findLast]
  | cons kv ws ih =>
    rw [findLast]
    cases hf : findLast ws q with
    | some w =>
      constructor
      · intro h
        cases h
      · intro h
        have hm : (q, w) ∈ ws := findLast_mem ws q w hf
        exact absurd rfl (h (q, w) (List.mem_cons_of_mem kv hm))
    | none =>
      have htail : ∀ kv2 ∈ ws, kv2.1 ≠ q := ih.mp hf
      by_cases hq : kv.1 = q
      · rw [if_pos hq]
        constructor
        · intro h
          cases h
        · intro h
          exact absurd hq (h kv (List.mem_cons_self kv ws))
      · rw [if_neg hq]
        constructor
        · intro _ kv2 hm
          rcases List.mem_cons.mp hm with he | ht
          · rw [he]
            exact hq
          · exact htail kv2 ht
        · intro _
          rfl

theorem functionalKV_tail {kv : Str × Str} {ws : List (Str × Str)}
    (hf : functionalKV (kv :: ws)) : functionalKV ws :=
  fun p hp p2 hp2 =>
    hf p (List.mem_cons_of_mem kv hp) p2 (List.mem_cons_of_mem kv hp2)

theorem findLast_eq_of_functional (ws : List (Str × Str))
    (hf : functionalKV ws) (q v : Str) (hm : (q, v) ∈ ws) :
    findLast ws q = some v := by
  induction ws with
  | nil => cases hm
  | cons kv ws ih =>
    rw [findLast]
    cases hlast : findLast ws q with
    | some w =>
      have hw : (q, w) ∈ kv :: ws :=
        List.mem_cons_of_mem kv (findLast_mem ws q w hlast)
      have : w = v := hf (q, w) hw (q, v) hm rfl
      rw [this]
    | none =>
      rcases List.mem_cons.mp hm with he | ht
      · rw [← he]
        simp
      · have := (findLast_none_iff ws q).mp hlast (q, v) ht
        exact absurd rfl this

theorem functionalKV_perm {ws1 ws2 : List (Str × Str)} (h : ws1.Perm ws2)
    (hf : functionalKV ws1) : functionalKV ws2 :=
  fun p hp p2 hp2 => hf p (h.symm.subset hp) p2 (h.symm.subset hp2)

theorem findLast_perm_of_functional {ws1 ws2 : List (Str × Str)}
    (h : ws1.Perm ws2) (hf : functionalKV ws1) (q : Str) :
    findLast ws1 q = findLast ws2 q := by
  cases h1 : findLast ws1 q with
  | some v =>
    have hm2 : (q, v) ∈ ws2 := h.subset (findLast_mem _ _ _ h1)
    rw [findLast_eq_of_functional ws2 (functionalKV_perm h hf) q v hm2]
  | none =>
    cases h2 : findLast ws2 q with
    | some v =>
      have hm1 : (q, v) ∈ ws1 := h.symm.subset (findLast_mem _ _ _ h2)
      rw [findLast_eq_of_functional ws1 hf q v hm1] at h1
      cases h1
    | none => rfl

theorem buildParams_eq (sing : List (Str × Str))
    (maps : List (List (Str × Str))) (q : Str) :
    buildParams sing maps q =
      match findLast maps.flatten q with
      | some v => some v
      | none =>
        match findLast sing q with
        | some v => some v
        | none => none := by
  simp only [buildParams]
  rw [applyWrites_findLast]
  cases findLast maps.flatten q with
  | some v => rfl
  | none =>
    rw [applyWrites_findLast]
    cases findLast sing q with
    | some v => rfl
    | none => rfl

/- ----- C4 ----- -/

/-- Counterexample to C4 as stated: two QUERIES mapping bindings, declared
in order m1 = \x5b(k,1)\x5d then m2 = \x5b(k,2)\x5d, collide on key k.
The claim demands the later-declared entry (value 2) to win on every call,
but the merge loop of ClientProxy.go:80-86 ranges over a Go map whose
iteration order is unspecified: the order \x5bm2, m1\x5d is a permutation
of the declaration order, and under it the earlier-declared value 1 wins. -/
theorem c4_counterexample :
    List.Perm [[(strOf "k", strOf "2")], [(strOf "k", strOf "1")]]
              [[(strOf "k", strOf "1")], [(strOf "k", strOf "2")]] ∧
    buildParams [] [[(strOf "k", strOf "2")], [(strOf "k", strOf "1")]]
        (strOf "k") = some (strOf "1") ∧
    strOf "1" ≠ strOf "2" := by
  refine ⟨by decide, by decide, by decide⟩

/-- C4 amended: the resulting query-parameter/header set is the union of
the individually-bound entries and all mapping entries; single bindings
are applied first and mapping bindings merged afterwards, so on a key
collision a mapping entry always overwrites a single-bound entry; which
entry wins a collision among bindings of the same stage is decided by the
last write in the (unspecified) Go map iteration order.  Precisely, for
the write lists of one execution: a key is absent iff no binding writes
it; the last mapping-stage write to a key is the final value and comes
from one of the mapping bindings; and when no mapping binding writes a
key, the single-binding stage decides it. -/
theorem c4_query_header_merge (sing : List (Str × Str))
    (maps : List (List (Str × Str))) (q : Str) :
    (buildParams sing maps q = none ↔
      ((∀ kv ∈ sing, kv.1 ≠ q) ∧ ∀ m ∈ maps, ∀ kv ∈ m, kv.1 ≠ q)) ∧
    (∀ v, findLast maps.flatten q = some v →
      buildParams sing maps q = some v ∧ ∃ m ∈ maps, (q, v) ∈ m) ∧
    (findLast maps.flatten q = none →
      buildParams sing maps q = findLast sing q) := by
  refine ⟨?_, ?_, ?_⟩
  · rw [buildParams_eq]
    cases hm : findLast maps.flatten q with
    | some v =>
      constructor
      · intro h
        cases h
      · intro h
        have hmem : (q, v) ∈ maps.flatten := findLast_mem _ _ _ hm
        rcases List.mem_flatten.mp hmem with ⟨l, hl, hkv⟩
        exact absurd rfl (h.2 l hl (q, v) hkv)
    | none =>
      have hmaps : ∀ m ∈ maps, ∀ kv ∈ m, kv.1 ≠ q := by
        intro m hml kv hkv
        exact (findLast_none_iff _ _).mp hm kv (List.mem_flatten.mpr ⟨m, hml, hkv⟩)
      cases hs : findLast sing q with
      | some v =>
        constructor
        · intro h
          cases h
        · intro h
          exact absurd rfl (h.1 (q, v) (findLast_mem _ _ _ hs))
      | none =>
        constructor
        · intro _
          exact ⟨(findLast_none_iff _ _).mp hs, hmaps⟩
        · intro _
          rfl
  · intro v hv
    constructor
    · rw [buildParams_eq, hv]
    · rcases List.mem_flatten.mp (findLast_mem _ _ _ hv) with ⟨l, hl, hkv⟩
      exact ⟨l, hl, hkv⟩
  · intro hm
    rw [buildParams_eq, hm]
    cases findLast sing q with
    | some v => rfl
    | none => rfl

/-- Witness for c4_query_header_merge: a single binding writes key a,
a mapping binding overwrites it. -/
theorem c4_query_header_merge_witness :
    buildParams [(strOf "a", strOf "1")] [[(strOf "a", strOf "2")]]
        (strOf "a") = some (strOf "2") ∧
    ∃ m ∈ [[(strOf "a", strOf "2")]], (strOf "a", strOf "2") ∈ m :=
  (c4_query_header_merge [(strOf "a", strOf "1")] [[(strOf "a", strOf "2")]]
      (strOf "a")).2.1 (strOf "2") (by decide)

/- ----- C7 ----- -/

/-- Counterexample to C7 as stated: with two BODY bindings declared at
positions 1 then 2, the loop `for k := range meta.BodyParam ... break`
(ClientProxy.go:62-65) takes the first entry of an unspecified Go map
iteration order; the order \x5b2, 1\x5d is a permutation of the declared
entries, and under it the argument of the second-declared binding — not
the first-declared one — becomes the body. -/
theorem c7_counterexample :
    List.Perm [(2, strOf "b2"), (1, strOf "b1")]
              [(1, strOf "b1"), (2, strOf "b2")] ∧
    bodyChosen [(2, strOf "b2"), (1, strOf "b1")]
        (fun n => if n = 1 then GoVal.vStr (strOf "a") else GoVal.vStr (strOf "b"))
      = some (GoVal.vStr (strOf "b")) ∧
    (fun n => if n = 1 then GoVal.vStr (strOf "a") else GoVal.vStr (strOf "b")) 1
      = GoVal.vStr (strOf "a") ∧
    GoVal.vStr (strOf "b") ≠ GoVal.vStr (strOf "a") := by
  refine ⟨by decide, by decide, by decide, by decide⟩

/-- C7 amended: when a method annotation declares more than one BODY
binding, exactly one body is used per invocation — the argument of one of
the declared BODY bindings, selected by the unspecified Go map iteration
order (not necessarily the first-declared one) — and the remaining BODY
bindings are ignored without error; with no BODY binding the body is
absent. -/
theorem c7_body_choice (canon ord : List (Nat × Str)) (args : Nat → GoVal)
    (h : ord.Perm canon) :
    (canon = [] → bodyChosen ord args = none) ∧
    (canon ≠ [] → ∃ kv ∈ canon, bodyChosen ord args = some (args kv.1)) := by
  constructor
  · intro he
    subst he
    have : ord = [] := List.Perm.eq_nil h
    simp [bodyChosen, this]
  · intro hne
    cases ord with
    | nil =>
      exact absurd (List.Perm.eq_nil h.symm) hne
    | cons kv rest =>
      refine ⟨kv, h.subset (List.mem_cons_self kv rest), ?_⟩
      simp [bodyChosen]

/-- Witness for c7_body_choice: one BODY binding at position 1. -/
theorem c7_body_choice_witness :
    ∃ kv ∈ [(1, strOf "b")],
      bodyChosen [(1, strOf "b")]
          (fun _ => GoVal.vStr (strOf "z")) = some ((fun _ => GoVal.vStr (strOf "z")) kv.1) :=
  (c7_body_choice [(1, strOf "b")] [(1, strOf "b")]
      (fun _ => GoVal.vStr (strOf "z")) (by decide)).2 (by decide)

/- ----- first-match lookup under key-functional permutations ----- -/

theorem lookupN_mem (n v : Str) : ∀ (vs : List (Str × Str)),
    lookupN n vs = some v → (n, v) ∈ vs := by
  intro vs
  induction vs with
  | nil => simp [lookupN]
  | cons kv vs ih =>
    intro h
    rw [lookupN] at h
    by_cases hk : kv.1 = n
    · rw [if_pos hk] at h
      have hv : kv.2 = v := by simpa using h
      have : (n, v) = kv := by rw [← hk, ← hv]
      exact this ▸ List.mem_cons_self kv vs
    · rw [if_neg hk] at h
      exact List.mem_cons_of_mem kv (ih h)

theorem lookupN_none_iff (n : Str) (vs : List (Str × Str)) :
    lookupN n vs = none ↔ ∀ kv ∈ vs, kv.1 ≠ n := by
  induction vs with
  | nil => simp [lookupN]
  | cons kv vs ih =>
    rw [lookupN]
    by_cases hk : kv.1 = n
    · rw [if_pos hk]
      constructor
      · intro h
        cases h
      · intro h
        exact absurd hk (h kv (List.mem_cons_self kv vs))
    · rw [if_neg hk]
      constructor
      · intro h kv2 hm
        rcases List.mem_cons.mp hm with he | ht
        · rw [he]
          exact hk
        · exact ih.mp h kv2 ht
      · intro h
        exact ih.mpr (fun kv2 ht => h kv2 (List.mem_cons_of_mem kv ht))

theorem lookupN_eq_of_functional (n v : Str) : ∀ (vs : List (Str × Str)),
    functionalKV vs → (n, v) ∈ vs → lookupN n vs = some v := by
  intro vs
  induction vs with
  | nil =>
    intro _ hm
    cases hm
  | cons kv vs ih =>
    intro hf hm
    rw [lookupN]
    by_cases hk : kv.1 = n
    · rw [if_pos hk]
      have : kv.2 = v :=
        hf kv (List.mem_cons_self kv vs) (n, v) hm hk
      rw [this]
    · rw [if_neg hk]
      rcases List.mem_cons.mp hm with he | ht
      · have : kv.1 = n := by rw [← he]
        exact absurd this hk
      · exact ih (functionalKV_tail hf) ht

theorem lookupN_perm_of_functional {vs1 vs2 : List (Str × Str)}
    (h : vs1.Perm vs2) (hf : functionalKV vs1) (n : Str) :
    lookupN n vs1 = lookupN n vs2 := by
  cases h1 : lookupN n vs1 with
  | some v =>
    have hm2 : (n, v) ∈ vs2 := h.subset (lookupN_mem n v vs1 h1)
    rw [lookupN_eq_of_functional n v vs2 (functionalKV_perm h hf) hm2]
  | none =>
    cases h2 : lookupN n vs2 with
    | some v =>
      have hm1 : (n, v) ∈ vs1 := h.symm.subset (lookupN_mem n v vs2 h2)
      rw [lookupN_eq_of_functional n v vs1 hf hm1] at h1
      cases h1
    | none => rfl

theorem substSeg_congr {vs1 vs2 : List (Str × Str)}
    (h : ∀ n, lookupN n vs1 = lookupN n vs2) (s : Seg) :
    substSeg vs1 s = substSeg vs2 s := by
  cases s with
  | lit u => simp [substSeg]
  | ph n =>
    simp only [substSeg]
    rw [h n]

/- ----- C9 ----- -/

/-- Counterexample to C9 as stated: a call plan with two BODY bindings
(positions 1 and 2).  Two invocations with identical arguments may observe
different Go map iteration orders — both orders below are permutations of
the same entry set — and then build requests whose bodies differ, so the
two Normalized Requests do not have identical content. -/
theorem c9_counterexample :
    List.Perm [(1, strOf "b1"), (2, strOf "b2")]
              [(2, strOf "b2"), (1, strOf "b1")] ∧
    (buildRequestN sGET [] [] [] [] [] [] [(1, strOf "b1"), (2, strOf "b2")]
        (fun n => if n = 1 then GoVal.vStr (strOf "a") else GoVal.vStr (strOf "b"))).body
      = some (GoVal.vStr (strOf "a")) ∧
    (buildRequestN sGET [] [] [] [] [] [] [(2, strOf "b2"), (1, strOf "b1")]
        (fun n => if n = 1 then GoVal.vStr (strOf "a") else GoVal.vStr (strOf "b"))).body
      = some (GoVal.vStr (strOf "b")) ∧
    GoVal.vStr (strOf "a") ≠ GoVal.vStr (strOf "b") := by
  refine ⟨by decide, by decide, by decide, by decide⟩

/-- C9 amended: request construction touches no state shared between
invocations — it is a function of the call plan, the arguments and the
iteration orders the Go runtime picks.  Two invocations with identical
arguments therefore build Normalized Requests with identical method and
path, and identical query parameters, headers and body, provided the plan
declares at most one BODY binding, its write lists are key-functional (no
key is written with two different values within a stage) and its path
bindings are hygienic; when those provisos fail, the colliding entries are
resolved by the unspecified Go map iteration order and the contents may
differ between invocations. -/
theorem c9_request_determinism
    (args : Nat → GoVal) (method : Str) (segs : List Seg)
    (pv1 pv2 sq1 sq2 sh1 sh2 : List (Str × Str))
    (mq1 mq2 mh1 mh2 : List (List (Str × Str)))
    (b1 b2 : List (Nat × Str))
    (hsegs : ∀ s ∈ segs, segOk s)
    (hpv : ∀ kv ∈ pv1, varOk kv)
    (hpvp : pv1.Perm pv2) (hpvf : functionalKV pv1)
    (hsqp : sq1.Perm sq2) (hsqf : functionalKV sq1)
    (hmqp : mq1.flatten.Perm mq2.flatten) (hmqf : functionalKV mq1.flatten)
    (hshp : sh1.Perm sh2) (hshf : functionalKV sh1)
    (hmhp : mh1.flatten.Perm mh2.flatten) (hmhf : functionalKV mh1.flatten)
    (hbp : b1.Perm b2) (hb : b1.length ≤ 1) :
    reqEq (buildRequestN method (renderT segs) pv1 sq1 mq1 sh1 mh1 b1 args)
          (buildRequestN method (renderT segs) pv2 sq2 mq2 sh2 mh2 b2 args) := by
  have hb12 : b1 = b2 := by
    cases b1 with
    | nil => exact (List.Perm.eq_nil hbp.symm).symm
    | cons kv rest =>
      cases rest with
      | nil => exact (List.perm_singleton.mp hbp.symm).symm
      | cons kv2 rest2 => simp at hb
  refine ⟨rfl, ?_, ?_, ?_, ?_⟩
  · show formatPath (renderT segs) pv1 = formatPath (renderT segs) pv2
    have hpv2 : ∀ kv ∈ pv2, varOk kv := fun kv m => hpv kv (hpvp.symm.subset m)
    rw [formatPath_renderT pv1 segs hsegs hpv,
        formatPath_renderT pv2 segs hsegs hpv2]
    exact congrArg renderT
      (List.map_congr_left (fun s _ =>
        substSeg_congr (lookupN_perm_of_functional hpvp hpvf) s))
  · intro q
    show buildParams sq1 mq1 q = buildParams sq2 mq2 q
    rw [buildParams_eq, buildParams_eq,
        findLast_perm_of_functional hmqp hmqf q,
        findLast_perm_of_functional hsqp hsqf q]
  · intro q
    show buildParams sh1 mh1 q = buildParams sh2 mh2 q
    rw [buildParams_eq, buildParams_eq,
        findLast_perm_of_functional hmhp hmhf q,
        findLast_perm_of_functional hshp hshf q]
  · show bodyChosen b1 args = bodyChosen b2 args
    rw [hb12]

/-- Witness for c9_request_determinism: a one-placeholder plan with a
query single binding, a header mapping binding and one BODY binding,
under two (equal up to permutation) iteration orders. -/
theorem c9_request_determinism_witness :
    reqEq
      (buildRequestN sGET (renderT [Seg.ph (strOf "id")])
        [(strOf "id", strOf "7")] [(strOf "q", strOf "1")] [[]]
        [] [[(strOf "h", strOf "2")]] [(1, strOf "b")]
        (fun _ => GoVal.vStr (strOf "z")))
      (buildRequestN sGET (renderT [Seg.ph (strOf "id")])
        [(strOf "id", strOf "7")] [(strOf "q", strOf "1")] [[]]
        [] [[(strOf "h", strOf "2")]] [(1, strOf "b")]
        (fun _ => GoVal.vStr (strOf "z"))) :=
  c9_request_determinism (fun _ => GoVal.vStr (strOf "z")) sGET
    [Seg.ph (strOf "id")]
    [(strOf "id", strOf "7")] [(strOf "id", strOf "7")]
    [(strOf "q", strOf "1")] [(strOf "q", strOf "1")]
    [] []
    [[]] [[]] [[(strOf "h", strOf "2")]] [[(strOf "h", strOf "2")]]
    [(1, strOf "b")] [(1, strOf "b")]
    (by decide) (by decide) (by decide) (by decide) (by decide) (by decide)
    (by decide) (by decide) (by decide) (by decide) (by decide) (by decide)
    (by decide) (by decide)

/- ----- annotation-parser characterization ----- -/

theorem parseStep_mapQueries (tys : Nat → GoType) (meta : TagMeta) (j : Nat)
    (line : Str) :
    (parseStep tys meta j line).mapQueries =
      meta.mapQueries ++
        (match queriesAccept tys j line with
         | some v => [(j, v)]
         | none => []) := by
  by_cases ht : strTrim line = []
  · simp [parseStep, queriesAccept, ht]
  · cases hsp : splitN2sp (strTrim line) with
    | nil => simp [parseStep, queriesAccept, ht, hsp]
    | cons a rest =>
      cases rest with
      | nil => simp [parseStep, queriesAccept, ht, hsp]
      | cons b rest2 =>
        cases rest2 with
        | nil =>
          by_cases hk : kindIsMapSS (tys j) = true
          all_goals
            cases hcl : classify (strToUpper (trimPrefixStr a (strOf "@"))) <;>
              simp [parseStep, queriesAccept, ht, hsp, hcl, hk]
        | cons c rest3 => simp [parseStep, queriesAccept, ht, hsp]

theorem parseStep_mapHeaders (tys : Nat → GoType) (meta : TagMeta) (j : Nat)
    (line : Str) :
    (parseStep tys meta j line).mapHeaders =
      meta.mapHeaders ++
        (match headersAccept tys j line with
         | some v => [(j, v)]
         | none => []) := by
  by_cases ht : strTrim line = []
  · simp [parseStep, headersAccept, ht]
  · cases hsp : splitN2sp (strTrim line) with
    | nil => simp [parseStep, headersAccept, ht, hsp]
    | cons a rest =>
      cases rest with
      | nil => simp [parseStep, headersAccept, ht, hsp]
      | cons b rest2 =>
        cases rest2 with
        | nil =>
          by_cases hk : kindIsMapSS (tys j) = true
          all_goals
            cases hcl : classify (strToUpper (trimPrefixStr a (strOf "@"))) <;>
              simp [parseStep, headersAccept, ht, hsp, hcl, hk]
        | cons c rest3 => simp [parseStep, headersAccept, ht, hsp]

theorem parseLines_mapQueries (tys : Nat → GoType) :
    ∀ (L : List Str) (j : Nat) (meta : TagMeta),
    (parseLines tys j L meta).mapQueries =
      meta.mapQueries ++ collectIdx (queriesAccept tys) j L := by
  intro L
  induction L with
  | nil =>
    intro j meta
    simp [parseLines, collectIdx]
  | cons l ls ih =>
    intro j meta
    rw [parseLines, ih, parseStep_mapQueries, collectIdx, List.append_assoc]

theorem parseLines_mapHeaders (tys : Nat → GoType) :
    ∀ (L : List Str) (j : Nat) (meta : TagMeta),
    (parseLines tys j L meta).mapHeaders =
      meta.mapHeaders ++ collectIdx (headersAccept tys) j L := by
  intro L
  induction L with
  | nil =>
    intro j meta
    simp [parseLines, collectIdx]
  | cons l ls ih =>
    intro j meta
    rw [parseLines, ih, parseStep_mapHeaders, collectIdx, List.append_assoc]

theorem collectIdx_mem_iff (f : Nat → Str → Option Str) :
    ∀ (L : List Str) (i j : Nat) (v : Str),
    ((j, v) ∈ collectIdx f i L ↔
      ∃ k, i + k = j ∧ ∃ l, L[k]? = some l ∧ f j l = some v) := by
  intro L
  induction L with
  | nil =>
    intro i j v
    simp [collectIdx]
  | cons l ls ih =>
    intro i j v
    rw [collectIdx, List.mem_append]
    constructor
    · intro h
      rcases h with h1 | h2
      · cases hf : f i l with
        | none =>
          rw [hf] at h1
          cases h1
        | some w =>
          rw [hf] at h1
          simp at h1
          obtain ⟨hj, hv⟩ := h1
          refine ⟨0, by omega, l, by simp, ?_⟩
          rw [hj, hf, hv]
      · rcases (ih (i + 1) j v).mp h2 with ⟨k, hk, lx, hg, hfv⟩
        exact ⟨k + 1, by omega, lx, by simpa using hg, hfv⟩
    · rintro ⟨k, hk, lx, hg, hfv⟩
      cases k with
      | zero =>
        have hl : l = lx := by simpa using hg
        subst hl
        have hij : i = j := by omega
        left
        rw [hij, hfv]
        simp
      | succ kp =>
        right
        exact (ih (i + 1) j v).mpr ⟨kp, by omega, lx, by simpa using hg, hfv⟩

/- ----- C10 ----- -/

/-- Counterexample to C10 as stated: a QUERIES segment whose parameter has
a defined (named) map type with underlying type map\x5bstring\x5dstring —
not the static type map\x5bstring\x5dstring itself — is nevertheless
recorded in the Call Template, because the parser checks reflect kinds
(ClientProxy.go:224-226), not type identity. -/
theorem c10_counterexample :
    (0, strOf "q") ∈
      (parseTagInfo (fun _ => GoType.tyNamedMapSS) (strOf "@QUERIES q")).mapQueries ∧
    GoType.tyNamedMapSS ≠ GoType.tyMapSS := by
  constructor
  · decide
  · decide

/-- C10 amended: a QUERIES/HEADERS segment at line position j is recorded
in the Call Template exactly when it parses as such and the parameter at
position j has map-of-string-to-string KIND (which includes named map
types), otherwise it is silently dropped at parse time; and at dispatch
time an argument at a recorded mapping position whose dynamic type is not
exactly map\x5bstring\x5dstring contributes no query parameters or
headers — in both cases without any error. -/
theorem c10_mapping_bindings :
    (∀ (tys : Nat → GoType) (doc : Str) (j : Nat) (v : Str),
      (j, v) ∈ (parseTagInfo tys doc).mapQueries ↔
        ∃ l, (splitOnChar '|' doc)[j]? = some l ∧
          queriesAccept tys j l = some v) ∧
    (∀ (tys : Nat → GoType) (doc : Str) (j : Nat) (v : Str),
      (j, v) ∈ (parseTagInfo tys doc).mapHeaders ↔
        ∃ l, (splitOnChar '|' doc)[j]? = some l ∧
          headersAccept tys j l = some v) ∧
    (∀ g : GoVal, (∀ m, g ≠ GoVal.vMap m) → entriesOfMapVal g = []) ∧
    (∀ (sing : List (Str × Str)) (maps : List (List (Str × Str)))
        (g : GoVal) (q : Str), (∀ m, g ≠ GoVal.vMap m) →
      buildParams sing (maps ++ [entriesOfMapVal g]) q =
        buildParams sing maps q) := by
  have hent : ∀ g : GoVal, (∀ m, g ≠ GoVal.vMap m) → entriesOfMapVal g = [] := by
    intro g hg
    cases g with
    | vStr s => rfl
    | vMap m => exact absurd rfl (hg m)
    | vNamedMap m => rfl
  refine ⟨?_, ?_, hent, ?_⟩
  · intro tys doc j v
    rw [parseTagInfo, parseLines_mapQueries]
    have := collectIdx_mem_iff (queriesAccept tys) (splitOnChar '|' doc) 0 j v
    simp only [emptyMeta, List.nil_append]
    rw [this]
    constructor
    · rintro ⟨k, hk, l, hg, hf⟩
      have : k = j := by omega
      subst this
      exact ⟨l, hg, hf⟩
    · rintro ⟨l, hg, hf⟩
      exact ⟨j, by omega, l, hg, hf⟩
  · intro tys doc j v
    rw [parseTagInfo, parseLines_mapHeaders]
    have := collectIdx_mem_iff (headersAccept tys) (splitOnChar '|' doc) 0 j v
    simp only [emptyMeta, List.nil_append]
    rw [this]
    constructor
    · rintro ⟨k, hk, l, hg, hf⟩
      have : k = j := by omega
      subst this
      exact ⟨l, hg, hf⟩
    · rintro ⟨l, hg, hf⟩
      exact ⟨j, by omega, l, hg, hf⟩
  · intro sing maps g q hg
    rw [buildParams_eq, buildParams_eq, hent g hg]
    rw [List.flatten_append]
    simp

/-- Witness for c10_mapping_bindings: a QUERIES segment over a literal
map-typed parameter is recorded; a named-map argument contributes no
query parameters at dispatch. -/
theorem c10_mapping_bindings_witness :
    (0, strOf "x") ∈
      (parseTagInfo (fun _ => GoType.tyMapSS) (strOf "@QUERIES x")).mapQueries ∧
    buildParams [] ([] ++ [entriesOfMapVal (GoVal.vNamedMap [(strOf "a", strOf "1")])])
        (strOf "a") = buildParams [] [] (strOf "a") :=
  ⟨(c10_mapping_bindings.1 (fun _ => GoType.tyMapSS) (strOf "@QUERIES x") 0
      (strOf "x")).mpr ⟨strOf "@QUERIES x", by decide, by decide⟩,
   c10_mapping_bindings.2.2.2 [] [] (GoVal.vNamedMap [(strOf "a", strOf "1")])
      (strOf "a") (fun _ h => by cases h)⟩

/- ----- base-URL resolution lemmas ----- -/

theorem splitOnChar_not_mem (c : Char) : ∀ (s : Str), c ∉ s →
    splitOnChar c s = [s] := by
  intro s
  induction s with
  | nil => intro _; rfl
  | cons x xs ih =>
    intro h
    have hx : (x == c) = false := by
      have hne : x ≠ c := fun e => h (by simp [e])
      simp [hne]
    have hxs : splitOnChar c xs = [xs] :=
      ih (fun m => h (List.mem_cons_of_mem x m))
    simp [splitOnChar, hx, hxs]

theorem dropWhile_isSpc_cons_eq {x : Char} {xs : Str} (h : isSpc x = false) :
    List.dropWhile isSpc (x :: xs) = x :: xs := by
  simp [List.dropWhile_cons, h]

theorem strTrim_atUrl_line (value : Str) (hnil : value ≠ [])
    (hspc : ∀ c ∈ value, isSpc c = false) :
    strTrim (sAtUrl ++ ' ' :: value) = sAtUrl ++ ' ' :: value := by
  unfold strTrim
  have h1 : (sAtUrl ++ ' ' :: value).dropWhile isSpc = sAtUrl ++ ' ' :: value := by
    have hsh : sAtUrl ++ ' ' :: value = '@' :: (strOf "Url" ++ ' ' :: value) := rfl
    rw [hsh]
    exact dropWhile_isSpc_cons_eq (by decide)
  rw [h1]
  cases hv : value.reverse with
  | nil => exact absurd (by simpa using hv) hnil
  | cons c cs =>
    have hc : isSpc c = false := by
      apply hspc
      have hm : c ∈ value.reverse := by
        rw [hv]
        exact List.mem_cons_self c cs
      exact List.mem_reverse.mp hm
    have h2 : (sAtUrl ++ ' ' :: value).reverse = c :: (cs ++ (' ' :: sAtUrl.reverse)) := by
      rw [List.reverse_append, List.reverse_cons, hv]
      simp
    rw [h2, dropWhile_isSpc_cons_eq hc, ← h2]
    exact List.reverse_reverse _

theorem fieldsAux_word (w : Str) : ∀ (rest acc : Str),
    (∀ c ∈ w, isSpc c = false) →
    fieldsAux (w ++ rest) acc = fieldsAux rest (w.reverse ++ acc) := by
  induction w with
  | nil =>
    intro rest acc _
    simp
  | cons c cs ih =>
    intro rest acc hw
    have hc : isSpc c = false := hw c (List.mem_cons_self c cs)
    rw [List.cons_append]
    have hstep : fieldsAux (c :: (cs ++ rest)) acc = fieldsAux (cs ++ rest) (c :: acc) := by
      simp [fieldsAux, hc]
    rw [hstep, ih rest (c :: acc) (fun x m => hw x (List.mem_cons_of_mem c m))]
    congr 1
    simp [List.reverse_cons, List.append_assoc]

theorem strFields_atUrl_line (value : Str) (hnil : value ≠ [])
    (hspc : ∀ c ∈ value, isSpc c = false) :
    strFields (sAtUrl ++ ' ' :: value) = [sAtUrl, value] := by
  unfold strFields
  rw [fieldsAux_word sAtUrl (' ' :: value) [] (by decide)]
  have hstep : fieldsAux (' ' :: value) (sAtUrl.reverse ++ []) =
      (sAtUrl.reverse ++ []).reverse :: fieldsAux value [] := by
    simp [fieldsAux, isSpc]
    decide
  rw [hstep]
  have hval : fieldsAux value [] = [value] := by
    have h0 := fieldsAux_word value [] [] hspc
    rw [List.append_nil] at h0
    rw [h0]
    simp [fieldsAux]
    exact hnil
  rw [hval]
  simp

theorem urlFromLine_atUrl (viper : Str → Str) (value : Str) (hnil : value ≠ [])
    (hspc : ∀ c ∈ value, isSpc c = false) :
    urlFromLine viper (sAtUrl ++ ' ' :: value) =
      (if resolveUrl viper value ≠ [] then some (resolveUrl viper value)
       else none) := by
  unfold urlFromLine
  simp only [strTrim_atUrl_line value hnil hspc,
    strFields_atUrl_line value hnil hspc, hasPre_self_append, if_true]

/- ----- C8 ----- -/

/-- C8: base-URL resolution order.  With one empty-marker field annotated
`@Url value` (value nonempty, whitespace-free, pipe-free): (1) a value
starting with the scheme prefix http:// or https:// is used as-is; (2)
otherwise the value is a key into the named-configuration collaborator
and a non-empty lookup result is used; (3) otherwise the constructor-
supplied URL is used; and with no marker field the constructor-supplied
URL is used directly. -/
theorem c8_base_url_resolution (viper : Str → Str) (value d : Str)
    (hnil : value ≠ []) (hspc : ∀ c ∈ value, isSpc c = false)
    (hbar : '|' ∉ value) :
    ((hasPre sHttp value || hasPre sHttps value) = true →
      extractBaseURLFromStruct viper [⟨true, sAtUrl ++ ' ' :: value⟩] d = value) ∧
    ((hasPre sHttp value || hasPre sHttps value) = false → viper value ≠ [] →
      extractBaseURLFromStruct viper [⟨true, sAtUrl ++ ' ' :: value⟩] d
        = viper value) ∧
    ((hasPre sHttp value || hasPre sHttps value) = false → viper value = [] →
      extractBaseURLFromStruct viper [⟨true, sAtUrl ++ ' ' :: value⟩] d = d) ∧
    extractBaseURLFromStruct viper [] d = d := by
  have hbar0 : '|' ∉ sAtUrl ++ ' ' :: value := by
    intro hm
    rcases List.mem_append.mp hm with h1 | h1
    · exact absurd h1 (by decide)
    · rcases List.mem_cons.mp h1 with he | ht
      · exact absurd he (by decide)
      · exact hbar ht
  have hsplit : splitOnChar '|' (sAtUrl ++ ' ' :: value) = [sAtUrl ++ ' ' :: value] :=
    splitOnChar_not_mem '|' _ hbar0
  have hline := urlFromLine_atUrl viper value hnil hspc
  have hextract : extractBaseURLFromStruct viper [⟨true, sAtUrl ++ ' ' :: value⟩] d =
      (match (if resolveUrl viper value ≠ [] then some (resolveUrl viper value)
              else none) with
       | some u => u
       | none => d) := by
    by_cases h : resolveUrl viper value = []
    · simp [extractBaseURLFromStruct, urlFromTag, hsplit, hline, h, List.findSome?]
    · simp [extractBaseURLFromStruct, urlFromTag, hsplit, hline, h, List.findSome?]
  refine ⟨?_, ?_, ?_, by unfold extractBaseURLFromStruct; simp⟩
  · intro hp
    have hres : resolveUrl viper value = value := by
      simp [resolveUrl, hp]
    rw [hextract, hres, if_pos hnil]
  · intro hp hv
    have hres : resolveUrl viper value = viper value := by
      simp [resolveUrl, hp]
    rw [hextract, hres, if_pos hv]
  · intro hp hv
    have hres : resolveUrl viper value = viper value := by
      simp [resolveUrl, hp]
    rw [hextract, hres, hv]
    simp

/-- Witness for c8_base_url_resolution: a literal URL wins; a config key
resolves through the collaborator; with an empty lookup (or no marker
field) the constructor-supplied URL "http://x" is the resolved base URL. -/
theorem c8_base_url_resolution_witness :
    extractBaseURLFromStruct (fun _ => [])
        [⟨true, sAtUrl ++ ' ' :: strOf "http://x"⟩] (strOf "d")
      = strOf "http://x" ∧
    extractBaseURLFromStruct (fun _ => strOf "http://svc")
        [⟨true, sAtUrl ++ ' ' :: strOf "cfg.key"⟩] (strOf "d")
      = strOf "http://svc" ∧
    extractBaseURLFromStruct (fun _ => [])
        [⟨true, sAtUrl ++ ' ' :: strOf "cfg.key"⟩] (strOf "http://x")
      = strOf "http://x" ∧
    extractBaseURLFromStruct (fun _ => []) [] (strOf "http://x")
      = strOf "http://x" :=
  ⟨(c8_base_url_resolution (fun _ => []) (strOf "http://x") (strOf "d")
      (by decide) (by decide) (by decide)).1 (by decide),
   (c8_base_url_resolution (fun _ => strOf "http://svc") (strOf "cfg.key")
      (strOf "d") (by decide) (by decide) (by decide)).2.1 (by decide) (by decide),
   (c8_base_url_resolution (fun _ => []) (strOf "cfg.key") (strOf "http://x")
      (by decide) (by decide) (by decide)).2.2.1 (by decide) (by decide),
   (c8_base_url_resolution (fun _ => []) (strOf "cfg.key") (strOf "http://x")
      (by decide) (by decide) (by decide)).2.2.2⟩

end Feign
